import Mathlib

/-!
Shallow embedding of `sentinel-privacy-middleware/main.py` (Sentinel Privacy
Middleware): a two-endpoint FastAPI service.  Python strings are modelled as
`List Char`; Python dicts as insertion-ordered association lists with Python's
update-in-place semantics; `str.replace` is modelled faithfully, including its
global left-to-right non-overlapping replacement and the empty-pattern case.
The external presidio engines (`AnalyzerEngine.analyze`,
`AnonymizerEngine.anonymize`) are parameters of the handlers: they are
third-party library calls, not code of this repository.
-/

/-- Python strings, modelled as lists of characters. -/
abbrev Str := List Char

/-- Decides whether `pat` is a prefix of `s` (Python `s.startswith(pat)`). -/
def startsWith : Str → Str → Bool
  | [], _ => true
  | _ :: _, [] => false
  | p :: ps, c :: cs => if p = c then startsWith ps cs else false

/-- Decides whether `pat` occurs as a contiguous substring of `s`
(Python `pat in s`). -/
def occursIn (pat : Str) : Str → Bool
  | [] => startsWith pat []
  | c :: rest => startsWith pat (c :: rest) || occursIn pat rest

/-- Fuel-indexed scanner behind `pyReplace`: at each position, if the (nonempty)
pattern matches, emit the replacement and skip the match, else keep the
character and advance.  With `fuel ≥ s.length` this is exactly Python
`s.replace(pat, rep)` for nonempty `pat`. -/
def replaceFuel : Nat → Str → Str → Str → Str
  | 0, s, _, _ => s
  | _ + 1, [], _, _ => []
  | fuel + 1, c :: rest, pat, rep =>
    if startsWith pat (c :: rest) then
      rep ++ replaceFuel fuel ((c :: rest).drop pat.length) pat rep
    else
      c :: replaceFuel fuel rest pat rep

/-- Python `s.replace(pat, rep)` (count argument omitted): replaces every
non-overlapping occurrence left to right; with an empty pattern Python
inserts `rep` before every character and at the end. -/
def pyReplace (s pat rep : Str) : Str :=
  match pat with
  | [] => rep ++ s.foldr (fun c acc => c :: (rep ++ acc)) []
  | _ :: _ => replaceFuel s.length s pat rep

/-- Fuel-indexed scanner mirroring `replaceFuel`, splitting `s` at every
non-overlapping occurrence of the (nonempty) pattern, left to right:
Python `s.split(pat)`. -/
def splitFuel : Nat → Str → Str → List Str
  | 0, s, _ => [s]
  | _ + 1, [], _ => [[]]
  | fuel + 1, c :: rest, pat =>
    if startsWith pat (c :: rest) then
      [] :: splitFuel fuel ((c :: rest).drop pat.length) pat
    else
      match splitFuel fuel rest pat with
      | [] => [[c]]
      | t :: ts => (c :: t) :: ts

/-- Python `s.split(pat)` for a nonempty pattern. -/
def pySplit (s pat : Str) : List Str := splitFuel s.length s pat

/-- Python `rep.join(parts)`. -/
def joinWith (rep : Str) : List Str → Str
  | [] => []
  | [t] => t
  | t :: u :: us => t ++ rep ++ joinWith rep (u :: us)

/-- One detection returned by the presidio analyzer: an entity type and the
character span `[start, stop)` it covers in the analyzed text. -/
structure RecognizerResult where
  entity_type : Str
  start : Nat
  stop : Nat
  deriving DecidableEq

/-- Placeholder synthesized in the handler: the f-string `f"<{res.entity_type}>"`. -/
def tag (entityType : Str) : Str := '<' :: (entityType ++ ['>'])

/-- Python slice `text[start:stop]` for nonnegative bounds. -/
def pySlice (text : Str) (start stop : Nat) : Str := (text.drop start).take (stop - start)

/-- Python dict assignment `d[k] = v` on an insertion-ordered association
list: if the key is present its value is updated in place (position kept),
otherwise the pair is appended at the end. -/
def dictSet (d : List (Str × Str)) (k v : Str) : List (Str × Str) :=
  if k ∈ d.map Prod.fst then d.map (fun p => if p.1 = k then (k, v) else p)
  else d ++ [(k, v)]

/-- Python dict lookup `d[k]`, as an `Option`. -/
def dictLookup : List (Str × Str) → Str → Option Str
  | [], _ => none
  | p :: rest, k => if p.1 = k then some p.2 else dictLookup rest k

/-- Keys of an association list, in order. -/
def keysOf (d : List (Str × Str)) : List Str := d.map Prod.fst

/-- The mapping-building loop of the `/anonymize` handler:
`for res in results: mapping[f"<{res.entity_type}>"] = text[res.start:res.end]`,
starting from the empty dict. -/
def buildMapping (text : Str) (results : List RecognizerResult) : List (Str × Str) :=
  results.foldl
    (fun m res => dictSet m (tag res.entity_type) (pySlice text res.start res.stop)) []

/-- Entity type `PERSON`. -/
def PERSON : Str := ['P', 'E', 'R', 'S', 'O', 'N']

/-- Entity type `EMAIL_ADDRESS`. -/
def EMAIL_ADDRESS : Str := ['E', 'M', 'A', 'I', 'L', '_', 'A', 'D', 'D', 'R', 'E', 'S', 'S']

/-- Entity type `PHONE_NUMBER`. -/
def PHONE_NUMBER : Str := ['P', 'H', 'O', 'N', 'E', '_', 'N', 'U', 'M', 'B', 'E', 'R']

/-- Entity type `LOCATION`. -/
def LOCATION : Str := ['L', 'O', 'C', 'A', 'T', 'I', 'O', 'N']

/-- The `entities=[...]` argument passed to `analyzer.analyze` in the handler. -/
def allowedEntities : List Str := [PERSON, EMAIL_ADDRESS, PHONE_NUMBER, LOCATION]

/-- The placeholder tags those four entity types can synthesize. -/
def allowedTags : List Str := allowedEntities.map tag

/-- Request body of `POST /anonymize`: the pydantic model `AnonymizeRequest`. -/
structure AnonymizeRequest where
  text : Str
  deriving DecidableEq

/-- Request body of `POST /deanonymize`: the pydantic model `DeanonymizeRequest`. -/
structure DeanonymizeRequest where
  ai_response : Str
  mapping : List (Str × Str)
  deriving DecidableEq

/-- Response body of `POST /anonymize`: the dict literal returned by the handler,
with exactly the fields `clean_text` and `mapping`. -/
structure AnonymizeResponse where
  clean_text : Str
  mapping : List (Str × Str)
  deriving DecidableEq

/-- Response body of `POST /deanonymize`: the dict literal returned by the handler,
with exactly the field `real_human_text`. -/
structure DeanonymizeResponse where
  real_human_text : Str
  deriving DecidableEq

/-- The `/anonymize` handler.  `analyze` stands for the external call
`analyzer.analyze(text=..., entities=[...], language='en')` and `engine` for
`anonymizer.anonymize(text=..., analyzer_results=results)`; both are presidio
library calls, so they are parameters here. -/
def anonymize_text (analyze : Str → List RecognizerResult)
    (engine : Str → List RecognizerResult → Str) (request : AnonymizeRequest) :
    AnonymizeResponse :=
  let results := analyze request.text
  let mapping := buildMapping request.text results
  { clean_text := engine request.text results, mapping := mapping }

/-- The `/deanonymize` handler:
`final_text = request.ai_response; for placeholder, real_data in
request.mapping.items(): final_text = final_text.replace(placeholder, real_data)`. -/
def deanonymize_text (request : DeanonymizeRequest) : DeanonymizeResponse :=
  { real_human_text :=
      request.mapping.foldl (fun t kv => pyReplace t kv.1 kv.2) request.ai_response }

/-- The `/deanonymize` handler written with each operation in a fallible
(`Except`) context: every step of the Python body is total, so no error value
is ever produced by the handler itself. -/
def deanonymize_textE (request : DeanonymizeRequest) :
    Except Str DeanonymizeResponse := do
  let mut final_text := request.ai_response
  for kv in request.mapping do
    final_text := pyReplace final_text kv.1 kv.2
  return { real_human_text := final_text }

/-- Module-level state of the server process: the engine bindings created at
module load (`analyzer = AnalyzerEngine()`, `anonymizer = AnonymizerEngine()`).
The repository's own code never rebinds or mutates them. -/
structure ServerState where
  analyzerEngine : Str → List RecognizerResult
  anonymizerEngine : Str → List RecognizerResult → Str

/-- Handling one `/anonymize` request as a state transformer on the server
state: the handler reads the engines and leaves the state unchanged. -/
def handleAnonymize (st : ServerState) (request : AnonymizeRequest) :
    ServerState × AnonymizeResponse :=
  (st, anonymize_text st.analyzerEngine st.anonymizerEngine request)

/-- Handling one `/deanonymize` request as a state transformer on the server
state: the handler touches no module-level binding at all. -/
def handleDeanonymize (st : ServerState) (request : DeanonymizeRequest) :
    ServerState × DeanonymizeResponse :=
  (st, deanonymize_text request)

theorem forIn_replace (m : List (Str × Str)) (t : Str) :
    (forIn (m := Except Str) m t
      (fun kv ft => pure (ForInStep.yield (pyReplace ft kv.1 kv.2)))) =
    Except.ok (m.foldl (fun a kv => pyReplace a kv.1 kv.2) t) := by
  induction m generalizing t with
  | nil => rfl
  | cons kv rest ih => simp [List.forIn_cons, ih]

theorem deanonymize_textE_ok (request : DeanonymizeRequest) :
    deanonymize_textE request = Except.ok (deanonymize_text request) := by
  obtain ⟨ai, m⟩ := request
  simp [deanonymize_textE, deanonymize_text, forIn_replace]

theorem startsWith_refl : ∀ l : Str, startsWith l l = true
  | [] => rfl
  | c :: cs => by simp [startsWith, startsWith_refl cs]

theorem startsWith_trans : ∀ {a b c : Str}, startsWith a b = true →
    startsWith b c = true → startsWith a c = true
  | [], _, _, _, _ => rfl
  | _ :: _, [], _, h, _ => by simp [startsWith] at h
  | a :: as, b :: bs, c, hab, hbc => by
    simp only [startsWith] at hab
    by_cases h : a = b
    · subst h
      cases c with
      | nil => simp [startsWith] at hbc
      | cons c cs =>
        simp only [startsWith] at hbc ⊢
        by_cases h2 : a = c
        · subst h2
          simp only [if_pos rfl] at hab hbc ⊢
          exact startsWith_trans hab hbc
        · simp [if_neg h2] at hbc
    · simp [if_neg h] at hab

theorem startsWith_extend {pat t rest : Str} {c : Char}
    (h1 : startsWith pat (c :: t) = true) (h2 : startsWith t rest = true) :
    startsWith pat (c :: rest) = true := by
  cases pat with
  | nil => rfl
  | cons p ps =>
    simp only [startsWith] at h1 ⊢
    by_cases h : p = c
    · simp only [if_pos h] at h1 ⊢
      exact startsWith_trans h1 h2
    · simp [if_neg h] at h1

theorem splitFuel_head : ∀ (fuel : Nat) (s pat : Str),
    ∃ t ts, splitFuel fuel s pat = t :: ts ∧ startsWith t s = true
  | 0, s, pat => ⟨s, [], rfl, startsWith_refl s⟩
  | _ + 1, [], pat => ⟨[], [], rfl, rfl⟩
  | fuel + 1, c :: rest, pat => by
    by_cases h : startsWith pat (c :: rest) = true
    · refine ⟨[], splitFuel fuel ((c :: rest).drop pat.length) pat, ?_, rfl⟩
      simp [splitFuel, h]
    · obtain ⟨t, ts, heq, hsw⟩ := splitFuel_head fuel rest pat
      refine ⟨c :: t, ts, ?_, ?_⟩
      · simp [splitFuel, h, heq]
      · simp [startsWith, hsw]

theorem replaceFuel_eq_joinWith : ∀ (fuel : Nat) (s pat rep : Str),
    replaceFuel fuel s pat rep = joinWith rep (splitFuel fuel s pat)
  | 0, s, pat, rep => rfl
  | _ + 1, [], pat, rep => rfl
  | fuel + 1, c :: rest, pat, rep => by
    by_cases h : startsWith pat (c :: rest) = true
    · obtain ⟨t, ts, heq, -⟩ := splitFuel_head fuel ((c :: rest).drop pat.length) pat
      simp [replaceFuel, splitFuel, h, heq, joinWith,
        replaceFuel_eq_joinWith fuel ((c :: rest).drop pat.length) pat rep]
    · obtain ⟨t, ts, heq, -⟩ := splitFuel_head fuel rest pat
      have ih := replaceFuel_eq_joinWith fuel rest pat rep
      rw [heq] at ih
      cases ts with
      | nil => simp [replaceFuel, splitFuel, h, heq, joinWith, ih]
      | cons u us => simp [replaceFuel, splitFuel, h, heq, joinWith, ih]

theorem occursIn_nil {pat : Str} (h : pat ≠ []) : occursIn pat [] = false := by
  cases pat with
  | nil => exact absurd rfl h
  | cons p ps => rfl

theorem splitFuel_no_occur : ∀ (fuel : Nat) (s pat : Str), pat ≠ [] →
    s.length ≤ fuel → ∀ part ∈ splitFuel fuel s pat, occursIn pat part = false
  | 0, s, pat, hp, hl, part, hm => by
    have hs : s = [] := List.eq_nil_of_length_eq_zero (Nat.le_zero.mp hl)
    subst hs
    simp only [splitFuel, List.mem_singleton] at hm
    subst hm
    exact occursIn_nil hp
  | _ + 1, [], pat, hp, hl, part, hm => by
    simp only [splitFuel, List.mem_singleton] at hm
    subst hm
    exact occursIn_nil hp
  | fuel + 1, c :: rest, pat, hp, hl, part, hm => by
    have hpat1 : 1 ≤ pat.length := List.length_pos.mpr hp
    by_cases h : startsWith pat (c :: rest) = true
    · simp only [splitFuel, if_pos h, List.mem_cons] at hm
      rcases hm with hm | hm
      · subst hm; exact occursIn_nil hp
      · refine splitFuel_no_occur fuel _ pat hp ?_ part hm
        simp only [List.length_drop, List.length_cons]
        simp only [List.length_cons] at hl
        omega
    · obtain ⟨t, ts, heq, hsw⟩ := splitFuel_head fuel rest pat
      have hrest : rest.length ≤ fuel := by
        simp only [List.length_cons] at hl; omega
      have ihall := splitFuel_no_occur fuel rest pat hp hrest
      rw [heq] at ihall
      simp only [splitFuel, if_neg h, heq, List.mem_cons] at hm
      rcases hm with hm | hm
      · subst hm
        have ht : occursIn pat t = false := ihall t (List.mem_cons_self t ts)
        have hsw2 : startsWith pat (c :: t) = false := by
          by_contra hc
          exact h (startsWith_extend (Bool.of_not_eq_false hc) hsw)
        simp [occursIn, hsw2, ht]
      · exact ihall part (List.mem_cons_of_mem t hm)

theorem keysOf_dictSet (d : List (Str × Str)) (k v : Str) :
    keysOf (dictSet d k v) = if k ∈ keysOf d then keysOf d else keysOf d ++ [k] := by
  unfold dictSet keysOf
  by_cases h : k ∈ d.map Prod.fst
  · rw [if_pos h, if_pos h, List.map_map]
    refine List.map_congr_left fun p _ => ?_
    by_cases hp : p.1 = k
    · simp only [Function.comp_apply, if_pos hp]
      exact hp.symm
    · simp only [Function.comp_apply, if_neg hp]
  · rw [if_neg h, if_neg h]
    simp

theorem keysOf_dictSet_nodup (d : List (Str × Str)) (k v : Str)
    (h : (keysOf d).Nodup) : (keysOf (dictSet d k v)).Nodup := by
  rw [keysOf_dictSet]
  by_cases hk : k ∈ keysOf d
  · rwa [if_pos hk]
  · rw [if_neg hk, List.nodup_append]
    exact ⟨h, List.nodup_singleton k,
      fun a ha hak => hk ((List.mem_singleton.mp hak) ▸ ha)⟩

theorem dictLookup_map_self : ∀ (d : List (Str × Str)) (k v : Str),
    k ∈ keysOf d →
    dictLookup (d.map (fun p => if p.1 = k then (k, v) else p)) k = some v
  | [], k, v, h => by simp [keysOf] at h
  | q :: rest, k, v, h => by
    by_cases hk : q.1 = k
    · simp [dictLookup, hk]
    · simp only [keysOf, List.map_cons, List.mem_cons] at h
      rcases h with h | h
      · exact absurd h.symm hk
      · simp only [List.map_cons, if_neg hk, dictLookup, if_neg hk]
        exact dictLookup_map_self rest k v h

theorem dictLookup_append_of_not_mem : ∀ (d l : List (Str × Str)) (k : Str),
    k ∉ keysOf d → dictLookup (d ++ l) k = dictLookup l k
  | [], l, k, _ => rfl
  | q :: rest, l, k, h => by
    have h1 : ¬ q.1 = k := fun he => h (by simp [keysOf, he])
    have h2 : k ∉ keysOf rest := fun hm => h (by simp only [keysOf, List.map_cons, List.mem_cons]; exact Or.inr hm)
    simp only [List.cons_append, dictLookup, if_neg h1]
    exact dictLookup_append_of_not_mem rest l k h2

theorem dictLookup_dictSet_self (d : List (Str × Str)) (k v : Str) :
    dictLookup (dictSet d k v) k = some v := by
  unfold dictSet
  by_cases h : k ∈ d.map Prod.fst
  · rw [if_pos h]
    exact dictLookup_map_self d k v h
  · rw [if_neg h, dictLookup_append_of_not_mem d _ k h]
    simp [dictLookup]

theorem dictLookup_map_other : ∀ (d : List (Str × Str)) (k v k' : Str), k' ≠ k →
    dictLookup (d.map (fun p => if p.1 = k then (k, v) else p)) k' = dictLookup d k'
  | [], _, _, _, _ => rfl
  | q :: rest, k, v, k', h => by
    by_cases hk : q.1 = k
    · simp only [List.map_cons, if_pos hk, dictLookup]
      rw [if_neg (fun he => h he.symm), if_neg (fun he => h (hk.symm.trans he).symm)]
      exact dictLookup_map_other rest k v k' h
    · simp only [List.map_cons, if_neg hk, dictLookup]
      by_cases he : q.1 = k'
      · simp [he]
      · simp only [if_neg he]
        exact dictLookup_map_other rest k v k' h

theorem dictLookup_dictSet_other (d : List (Str × Str)) (k v k' : Str) (h : k' ≠ k) :
    dictLookup (dictSet d k v) k' = dictLookup d k' := by
  unfold dictSet
  by_cases hm : k ∈ d.map Prod.fst
  · rw [if_pos hm]
    exact dictLookup_map_other d k v k' h
  · rw [if_neg hm]
    induction d with
    | nil => simp [dictLookup, if_neg (fun he : k = k' => h he.symm)]
    | cons q rest ih =>
      simp only [List.cons_append, dictLookup]
      by_cases he : q.1 = k'
      · simp [he]
      · simp only [if_neg he]
        exact ih (by simp only [List.map_cons, List.mem_cons] at hm; tauto)

theorem mem_dictSet {d : List (Str × Str)} {k v : Str} {p : Str × Str}
    (h : p ∈ dictSet d k v) : p ∈ d ∨ p = (k, v) := by
  unfold dictSet at h
  by_cases hm : k ∈ d.map Prod.fst
  · rw [if_pos hm] at h
    obtain ⟨q, hq, hqe⟩ := List.mem_map.mp h
    by_cases hqk : q.1 = k
    · right
      rw [if_pos hqk] at hqe
      exact hqe.symm
    · left
      rw [if_neg hqk] at hqe
      exact hqe ▸ hq
  · rw [if_neg hm] at h
    rcases List.mem_append.mp h with h | h
    · exact Or.inl h
    · simp only [List.mem_singleton] at h
      exact Or.inr h

theorem foldl_dictSet_lookup (text : Str) : ∀ (rs : List RecognizerResult)
    (init : List (Str × Str)) (key : Str),
    dictLookup
      (rs.foldl
        (fun m res => dictSet m (tag res.entity_type) (pySlice text res.start res.stop))
        init) key =
    (((rs.filter (fun r => tag r.entity_type = key)).getLast?).map
        (fun r => pySlice text r.start r.stop)).or (dictLookup init key)
  | [], init, key => by simp [List.filter]
  | r :: rs', init, key => by
    rw [List.foldl_cons, foldl_dictSet_lookup text rs']
    by_cases h : tag r.entity_type = key
    · rw [List.filter_cons_of_pos (by simpa using h)]
      cases hlast : (rs'.filter (fun r => tag r.entity_type = key)).getLast? with
      | none =>
        have hnil : rs'.filter (fun r => tag r.entity_type = key) = [] :=
          List.getLast?_eq_none_iff.mp hlast
        rw [hnil, ← h, dictLookup_dictSet_self]
        simp [Option.or]
      | some x =>
        cases hfil : rs'.filter (fun r => tag r.entity_type = key) with
        | nil => rw [hfil] at hlast; simp at hlast
        | cons y ys =>
          rw [hfil] at hlast
          rw [List.getLast?_cons_cons, hlast]
          simp [Option.or]
    · rw [List.filter_cons_of_neg (by simpa using h)]
      cases hlast : (rs'.filter (fun r => tag r.entity_type = key)).getLast? with
      | none =>
        exact dictLookup_dictSet_other init _ _ key (fun he => h he.symm)
      | some x => simp [hlast]

theorem buildMapping_lookup (text : Str) (rs : List RecognizerResult) (key : Str) :
    dictLookup (buildMapping text rs) key =
    ((rs.filter (fun r => tag r.entity_type = key)).getLast?).map
      (fun r => pySlice text r.start r.stop) := by
  rw [buildMapping, foldl_dictSet_lookup]
  cases ((rs.filter (fun r => tag r.entity_type = key)).getLast?).map
      (fun r => pySlice text r.start r.stop) with
  | none => rfl
  | some x => rfl

theorem mem_foldl_dictSet (text : Str) : ∀ (rs : List RecognizerResult)
    (init : List (Str × Str)) (p : Str × Str),
    p ∈ rs.foldl
      (fun m res => dictSet m (tag res.entity_type) (pySlice text res.start res.stop))
      init →
    p ∈ init ∨ ∃ r, r ∈ rs ∧ p = (tag r.entity_type, pySlice text r.start r.stop)
  | [], init, p, h => Or.inl h
  | r :: rs', init, p, h => by
    rw [List.foldl_cons] at h
    rcases mem_foldl_dictSet text rs' _ p h with h' | ⟨r', hr', he⟩
    · rcases mem_dictSet h' with h'' | h''
      · exact Or.inl h''
      · exact Or.inr ⟨r, List.mem_cons_self r rs', h''⟩
    · exact Or.inr ⟨r', List.mem_cons_of_mem r hr', he⟩

theorem mem_buildMapping {text : Str} {rs : List RecognizerResult} {p : Str × Str}
    (h : p ∈ buildMapping text rs) :
    ∃ r, r ∈ rs ∧ p = (tag r.entity_type, pySlice text r.start r.stop) := by
  rcases mem_foldl_dictSet text rs [] p h with h' | h'
  · simp at h'
  · exact h'

theorem keysOf_foldl_nodup (text : Str) : ∀ (rs : List RecognizerResult)
    (init : List (Str × Str)), (keysOf init).Nodup →
    (keysOf (rs.foldl
      (fun m res => dictSet m (tag res.entity_type) (pySlice text res.start res.stop))
      init)).Nodup
  | [], init, h => h
  | r :: rs', init, h => by
    rw [List.foldl_cons]
    exact keysOf_foldl_nodup text rs' _ (keysOf_dictSet_nodup init _ _ h)

theorem keysOf_buildMapping_nodup (text : Str) (rs : List RecognizerResult) :
    (keysOf (buildMapping text rs)).Nodup :=
  keysOf_foldl_nodup text rs [] List.nodup_nil

theorem nodup_length_le {α : Type} [DecidableEq α] : ∀ (l l' : List α),
    l.Nodup → (∀ x ∈ l, x ∈ l') → l.length ≤ l'.length
  | [], _, _, _ => Nat.zero_le _
  | x :: xs, l', h, hsub => by
    have hx : x ∈ l' := hsub x (List.mem_cons_self x xs)
    have hnd := List.nodup_cons.mp h
    have hsub' : ∀ y ∈ xs, y ∈ l'.erase x := by
      intro y hy
      exact (List.mem_erase_of_ne (fun he => hnd.1 (by rw [← he]; exact hy))).mpr (hsub y (List.mem_cons_of_mem x hy))
    have := nodup_length_le xs (l'.erase x) hnd.2 hsub'
    have hlen : (l'.erase x).length = l'.length - 1 := List.length_erase_of_mem hx
    have hpos : 1 ≤ l'.length := List.length_pos.mpr (List.ne_nil_of_mem hx)
    simp only [List.length_cons]
    omega

theorem perm_length_le_one_eq {α : Type} {l₁ l₂ : List α}
    (h : l₁.Perm l₂) (hl : l₁.length ≤ 1) : l₁ = l₂ := by
  cases l₁ with
  | nil => exact (List.Perm.nil_eq h)
  | cons x xs =>
    cases xs with
    | nil => exact (List.perm_singleton.mp h.symm).symm
    | cons y ys => simp at hl

theorem tag_inj {a b : Str} (h : tag a = tag b) : a = b := by
  simp only [tag, List.cons.injEq, true_and] at h
  exact List.append_left_inj ['>'] |>.mp h

/-- Claim C1: for every deanonymize request, the endpoint returns `real_human_text`
equal to the sequential left fold of Python `str.replace` over the mapping entries
in iteration order applied to `ai_response`; the explicit recursion equations show
that no other transformation is applied. -/
theorem C1_deanonymize_is_replace_fold :
    (∀ req : DeanonymizeRequest, (deanonymize_text req).real_human_text =
      req.mapping.foldl (fun t kv => pyReplace t kv.1 kv.2) req.ai_response) ∧
    (∀ ai : Str, (deanonymize_text ⟨ai, []⟩).real_human_text = ai) ∧
    (∀ (ai k v : Str) (rest : List (Str × Str)),
      (deanonymize_text ⟨ai, (k, v) :: rest⟩).real_human_text =
      (deanonymize_text ⟨pyReplace ai k v, rest⟩).real_human_text) :=
  ⟨fun _ => rfl, fun _ => rfl, fun _ _ _ _ => rfl⟩

/-- Claim C2: round-tripping text with no detectable entities is a no-op.  When the
analyzer returns the empty result list on `text` and the anonymizer engine (an
external presidio call, hypothesis `hE`) leaves a text with no results unchanged,
`/anonymize` returns `clean_text = text` with an empty mapping, `/deanonymize` with
an empty mapping returns its input unchanged, and the composition returns `text`. -/
theorem C2_no_entities_roundtrip (analyze : Str → List RecognizerResult)
    (engine : Str → List RecognizerResult → Str) (text : Str)
    (hA : analyze text = []) (hE : ∀ t, engine t [] = t) :
    (anonymize_text analyze engine ⟨text⟩).clean_text = text ∧
    (anonymize_text analyze engine ⟨text⟩).mapping = [] ∧
    (∀ t : Str, (deanonymize_text ⟨t, []⟩).real_human_text = t) ∧
    (deanonymize_text ⟨(anonymize_text analyze engine ⟨text⟩).clean_text,
        (anonymize_text analyze engine ⟨text⟩).mapping⟩).real_human_text = text := by
  refine ⟨?_, ?_, fun _ => rfl, ?_⟩ <;>
    simp [anonymize_text, hA, hE, buildMapping, deanonymize_text]

/-- Claim C3: every key of the returned mapping is synthesized as the tag
`"<" ++ entity_type ++ ">"` of some detected entity, two entities of the same
entity type synthesize the same key, and the value stored under the tag of a type
is the slice of the last detected entity of that type (earlier ones are
overwritten). -/
theorem C3_same_type_same_key_last_wins (text : Str) (rs : List RecognizerResult) :
    (∀ k, k ∈ keysOf (buildMapping text rs) → ∃ r, r ∈ rs ∧ k = tag r.entity_type) ∧
    (∀ r1 r2 : RecognizerResult, r1.entity_type = r2.entity_type →
      tag r1.entity_type = tag r2.entity_type) ∧
    (∀ T : Str, dictLookup (buildMapping text rs) (tag T) =
      ((rs.filter (fun r => r.entity_type = T)).getLast?).map
        (fun r => pySlice text r.start r.stop)) := by
  refine ⟨?_, fun r1 r2 h => by rw [h], ?_⟩
  · intro k hk
    rw [keysOf] at hk
    obtain ⟨p, hp, hfst⟩ := List.mem_map.mp hk
    obtain ⟨r, hr, he⟩ := mem_buildMapping hp
    subst hfst
    rw [he]
    exact ⟨r, hr, rfl⟩
  · intro T
    rw [buildMapping_lookup]
    have hf : List.filter (fun r => decide (tag r.entity_type = tag T)) rs =
        List.filter (fun r => decide (r.entity_type = T)) rs :=
      List.filter_congr fun r _ =>
        decide_eq_decide.mpr ⟨fun h => tag_inj h, fun h => by rw [h]⟩
    rw [hf]

/-- Counterexample to claim C4: the mappings `[("A","B"),("B","C")]` and
`[("B","C"),("A","B")]` contain exactly the same pairs in different iteration
orders, yet on `ai_response = "A"` the endpoint returns "C" for the first order
and "B" for the second. -/
theorem C4_counterexample :
    ([((['A'] : Str), (['B'] : Str)), (['B'], ['C'])]).Perm
      [((['B'] : Str), (['C'] : Str)), (['A'], ['B'])] ∧
    (deanonymize_text ⟨['A'], [(['A'], ['B']), (['B'], ['C'])]⟩).real_human_text ≠
    (deanonymize_text ⟨['A'], [(['B'], ['C']), (['A'], ['B'])]⟩).real_human_text :=
  ⟨List.Perm.swap _ _ _, by decide⟩

/-- Claim C4 (amended): the insertion order of the mapping is NOT irrelevant in
general, because later replacements act on the output of earlier ones; it is
irrelevant only in degenerate cases such as mappings with at most one entry, where
any two iteration orders of the same pairs give the same `real_human_text`. -/
theorem C4_amended_order_matters (ai : Str) (m1 m2 : List (Str × Str))
    (hperm : m1.Perm m2) (hlen : m1.length ≤ 1) :
    (deanonymize_text ⟨ai, m1⟩).real_human_text =
    (deanonymize_text ⟨ai, m2⟩).real_human_text := by
  rw [perm_length_le_one_eq hperm hlen]

/-- Witness for the amended claim C4 at a concrete one-entry mapping. -/
theorem C4_witness :
    ([((['a'] : Str), (['b'] : Str))]).Perm [((['a'] : Str), (['b'] : Str))] ∧
    ([((['a'] : Str), (['b'] : Str))]).length ≤ 1 ∧
    (deanonymize_text ⟨['x'], [(['a'], ['b'])]⟩).real_human_text =
    (deanonymize_text ⟨['x'], [(['a'], ['b'])]⟩).real_human_text :=
  ⟨List.Perm.refl _, by decide,
    C4_amended_order_matters ['x'] _ _ (List.Perm.refl _) (by decide)⟩

/-- Claim C5: the external contract is exactly two JSON endpoints.  `/anonymize`
takes a request with the single field `text` and returns an object with exactly
the fields `clean_text` and `mapping`; `/deanonymize` takes `ai_response` plus
`mapping` and returns an object with exactly the field `real_human_text`.  The eta
equations show each request and response type has exactly the listed fields. -/
theorem C5_external_contract :
    (∀ (analyze : Str → List RecognizerResult)
      (engine : Str → List RecognizerResult → Str) (req : AnonymizeRequest),
      anonymize_text analyze engine req =
        { clean_text := engine req.text (analyze req.text),
          mapping := buildMapping req.text (analyze req.text) }) ∧
    (∀ req : DeanonymizeRequest,
      deanonymize_text req =
        { real_human_text :=
            req.mapping.foldl (fun t kv => pyReplace t kv.1 kv.2) req.ai_response }) ∧
    (∀ resp : AnonymizeResponse,
      resp = { clean_text := resp.clean_text, mapping := resp.mapping }) ∧
    (∀ resp : DeanonymizeResponse, resp = { real_human_text := resp.real_human_text }) ∧
    (∀ req : AnonymizeRequest, req = { text := req.text }) ∧
    (∀ req : DeanonymizeRequest,
      req = { ai_response := req.ai_response, mapping := req.mapping }) :=
  ⟨fun _ _ _ => rfl, fun _ => rfl, fun _ => rfl, fun _ => rfl, fun _ => rfl, fun _ => rfl⟩

/-- Claim C6: every value of the mapping returned by `/anonymize` is an original
contiguous slice of the request text, namely `text[res.start:res.end]` for some
analyzer result `res`. -/
theorem C6_mapping_values_are_slices (text : Str) (rs : List RecognizerResult)
    (k v : Str) (h : (k, v) ∈ buildMapping text rs) :
    ∃ r, r ∈ rs ∧ v = pySlice text r.start r.stop := by
  obtain ⟨r, hr, he⟩ := mem_buildMapping h
  exact ⟨r, hr, congrArg Prod.snd he⟩

/-- Witness for claim C6 at the concrete text "Bob" with one PERSON detection. -/
theorem C6_witness :
    ∃ r, r ∈ [RecognizerResult.mk PERSON 0 3] ∧
      (['B', 'o', 'b'] : Str) = pySlice ['B', 'o', 'b'] r.start r.stop :=
  C6_mapping_values_are_slices ['B', 'o', 'b'] [RecognizerResult.mk PERSON 0 3]
    (tag PERSON) ['B', 'o', 'b'] (by decide)

/-- Claim C7: each request is handled independently with no shared mutable state:
both handlers leave the module-level server state unchanged, and `/deanonymize` is
a pure deterministic function of its request, so two runs on equal inputs produce
equal outputs. -/
theorem C7_stateless_deterministic :
    (∀ (st : ServerState) (req : AnonymizeRequest), (handleAnonymize st req).1 = st) ∧
    (∀ (st : ServerState) (req : DeanonymizeRequest), (handleDeanonymize st req).1 = st) ∧
    (∀ r1 r2 : DeanonymizeRequest, r1.ai_response = r2.ai_response →
      r1.mapping = r2.mapping → deanonymize_text r1 = deanonymize_text r2) := by
  refine ⟨fun _ _ => rfl, fun _ _ => rfl, fun r1 r2 h1 h2 => ?_⟩
  obtain ⟨a1, m1⟩ := r1
  obtain ⟨a2, m2⟩ := r2
  cases h1
  cases h2
  rfl

/-- Witness for claim C7: determinism at a concrete request. -/
theorem C7_witness :
    deanonymize_text ⟨['a'], []⟩ = deanonymize_text ⟨['a'], []⟩ :=
  C7_stateless_deterministic.2.2 ⟨['a'], []⟩ ⟨['a'], []⟩ rfl rfl

/-- Claim C8: the `/deanonymize` handler introduces no error branch of its own:
run in a fallible context, it returns `Except.ok` of the pure result for every
`ai_response` and every finite string-to-string mapping, never an error. -/
theorem C8_handler_total_no_error (req : DeanonymizeRequest) :
    deanonymize_textE req = Except.ok (deanonymize_text req) := by
  obtain ⟨ai, m⟩ := req
  simp [deanonymize_textE, deanonymize_text, forIn_replace]

/-- Counterexample to claim C9: with the single-entry mapping `{"ab": "ca"}`,
whose value does not contain the placeholder, `/deanonymize` on `ai_response =
"abb"` returns "cab", which does contain the placeholder "ab": the replacement
value concatenated with the following text recreated an occurrence. -/
theorem C9_counterexample :
    occursIn ['a', 'b'] ['c', 'a'] = false ∧
    (deanonymize_text ⟨['a', 'b', 'b'], [(['a', 'b'], ['c', 'a'])]⟩).real_human_text =
      ['c', 'a', 'b'] ∧
    occursIn ['a', 'b']
      (deanonymize_text ⟨['a', 'b', 'b'], [(['a', 'b'], ['c', 'a'])]⟩).real_human_text =
      true := by decide

/-- Claim C9 (amended): replacement is global, not first-occurrence-only: for a
single-entry mapping with a nonempty placeholder the result is the value joined
between the placeholder-separated segments of `ai_response` (Python
`value.join(ai_response.split(placeholder))`) and no segment contains the
placeholder; occurrences of the placeholder may nevertheless reappear in the
output when the value concatenated with adjacent segments recreates one. -/
theorem C9_amended_global_replacement (ai pat rep : Str) (hp : pat ≠ []) :
    (deanonymize_text ⟨ai, [(pat, rep)]⟩).real_human_text =
      joinWith rep (pySplit ai pat) ∧
    ∀ part ∈ pySplit ai pat, occursIn pat part = false := by
  cases pat with
  | nil => exact absurd rfl hp
  | cons p ps =>
    exact ⟨replaceFuel_eq_joinWith ai.length ai (p :: ps) rep,
      splitFuel_no_occur ai.length ai (p :: ps) hp (Nat.le_refl _)⟩

/-- Witness for the amended claim C9 at concrete input "abb" with mapping
`{"ab": "X"}`. -/
theorem C9_witness :
    (deanonymize_text ⟨['a', 'b', 'b'], [(['a', 'b'], ['X'])]⟩).real_human_text =
      joinWith ['X'] (pySplit ['a', 'b', 'b'] ['a', 'b']) ∧
    ∀ part ∈ pySplit ['a', 'b', 'b'] ['a', 'b'],
      occursIn ['a', 'b'] part = false :=
  C9_amended_global_replacement ['a', 'b', 'b'] ['a', 'b'] ['X'] (by decide)

/-- Claim C10: since `analyzer.analyze` is invoked restricted to the four entity
types PERSON, EMAIL_ADDRESS, PHONE_NUMBER and LOCATION (hypothesis `h` states that
every result carries one of these types), the returned mapping has at most 4
entries and its key set is a subset of the four corresponding tags. -/
theorem C10_mapping_bounded (text : Str) (rs : List RecognizerResult)
    (h : ∀ r ∈ rs, r.entity_type ∈ allowedEntities) :
    (buildMapping text rs).length ≤ 4 ∧
    ∀ k ∈ keysOf (buildMapping text rs), k ∈ allowedTags := by
  have hkeys : ∀ k ∈ keysOf (buildMapping text rs), k ∈ allowedTags := by
    intro k hk
    rw [keysOf] at hk
    obtain ⟨p, hp, hfst⟩ := List.mem_map.mp hk
    obtain ⟨r, hr, he⟩ := mem_buildMapping hp
    subst hfst
    rw [he]
    exact List.mem_map.mpr ⟨r.entity_type, h r hr, rfl⟩
  refine ⟨?_, hkeys⟩
  have h1 : (keysOf (buildMapping text rs)).length ≤ allowedTags.length :=
    nodup_length_le _ _ (keysOf_buildMapping_nodup text rs) hkeys
  have h2 : (keysOf (buildMapping text rs)).length = (buildMapping text rs).length :=
    List.length_map _ _
  have h3 : allowedTags.length = 4 := rfl
  omega

/-- Witness for claim C10 at the concrete text "Bob" with one PERSON detection. -/
theorem C10_witness :
    (buildMapping ['B', 'o', 'b'] [RecognizerResult.mk PERSON 0 3]).length ≤ 4 ∧
    ∀ k ∈ keysOf (buildMapping ['B', 'o', 'b'] [RecognizerResult.mk PERSON 0 3]),
      k ∈ allowedTags :=
  C10_mapping_bounded ['B', 'o', 'b'] [RecognizerResult.mk PERSON 0 3] (by decide)

/-- Witness for claim C2 at the concrete text "hi" with an analyzer returning no
results and an identity engine. -/
theorem C2_witness :
    (anonymize_text (fun _ => []) (fun t _ => t) ⟨['h', 'i']⟩).clean_text = ['h', 'i'] ∧
    (anonymize_text (fun _ => []) (fun t _ => t) ⟨['h', 'i']⟩).mapping = [] ∧
    (∀ t : Str, (deanonymize_text ⟨t, []⟩).real_human_text = t) ∧
    (deanonymize_text
        ⟨(anonymize_text (fun _ => []) (fun t _ => t) ⟨['h', 'i']⟩).clean_text,
         (anonymize_text (fun _ => []) (fun t _ => t) ⟨['h', 'i']⟩).mapping⟩).real_human_text =
      ['h', 'i'] :=
  C2_no_entities_roundtrip (fun _ => []) (fun t _ => t) ['h', 'i'] rfl (fun _ => rfl)

/-- Witness for claim C3: with two PERSON detections in "Bob Al", the single
`<PERSON>` key retains only the last value "Al". -/
theorem C3_witness :
    dictLookup
      (buildMapping ['B', 'o', 'b', ' ', 'A', 'l']
        [RecognizerResult.mk PERSON 0 3, RecognizerResult.mk PERSON 4 6]) (tag PERSON) =
      some ['A', 'l'] ∧
    ∃ r, r ∈ [RecognizerResult.mk PERSON 0 3, RecognizerResult.mk PERSON 4 6] ∧
      tag PERSON = tag r.entity_type :=
  ⟨((C3_same_type_same_key_last_wins ['B', 'o', 'b', ' ', 'A', 'l']
      [RecognizerResult.mk PERSON 0 3, RecognizerResult.mk PERSON 4 6]).2.2 PERSON).trans
      (by decide),
   (C3_same_type_same_key_last_wins ['B', 'o', 'b', ' ', 'A', 'l']
      [RecognizerResult.mk PERSON 0 3, RecognizerResult.mk PERSON 4 6]).1 (tag PERSON)
      (by decide)⟩
